import Mathlib

/-!
Verification of the audio-text sync player's core algorithms: the timing
reconciler, the playback position tracker, the canvas layout engine, the
scroll smoothing of the export render driver, the export state machine
flag discipline, and the alignment-response validation.

Transcripts and words are modelled as lists of characters, timestamps as
rationals. Each definition is a direct shallow embedding of the
corresponding TypeScript in the repository.
-/

namespace SyncPlayer

/-- A word timing triple as produced by the alignment oracle
(interface WordTiming in types.ts). The source field name is
end; Lean reserves that keyword, so it is called endTime here. -/
structure WordTiming where
  word : List Char
  start : ℚ
  endTime : ℚ
deriving DecidableEq, Repr

/-- View segment union (type ViewElement in types.ts): a timed word
carrying its originalIndex, or a literal whitespace run. -/
inductive ViewElement where
  | word (timing : WordTiming) (originalIndex : ℕ)
  | whitespace (content : List Char)
deriving DecidableEq, Repr

/-- Whether the word w occurs in transcript t starting exactly at
position p (the whole occurrence lies inside t). -/
def matchesAt (t w : List Char) (p : ℕ) : Bool :=
  decide ((t.drop p).take w.length = w)

/-- JS String.indexOf(word, cursor): the least position p with
cursor <= p at which w occurs in t, none when there is no occurrence
(the source receives -1 there). -/
def indexOfFrom (t w : List Char) (cursor : ℕ) : Option ℕ :=
  (List.range (t.length + 1)).find? (fun p => decide (cursor ≤ p) && matchesAt t w p)

/-- The reconciliation loop body of handleSubmit (part_000 lines 66-91):
cursor into the transcript, index into the timing list, remaining
timings. A found word emits its preceding whitespace (when non-empty)
then the word and advances the cursor; a missing word emits a bare word
segment and leaves the cursor alone; the tail after the last timing is
emitted as one final whitespace segment when non-empty. -/
def reconcileAux (t : List Char) : ℕ → ℕ → List WordTiming → List ViewElement
  | cursor, _, [] =>
      let rem := t.drop cursor
      if rem = [] then [] else [ViewElement.whitespace rem]
  | cursor, idx, timing :: rest =>
      match indexOfFrom t timing.word cursor with
      | none => ViewElement.word timing idx :: reconcileAux t cursor (idx + 1) rest
      | some p =>
          let ws := (t.drop cursor).take (p - cursor)
          (if ws = [] then [] else [ViewElement.whitespace ws]) ++
            ViewElement.word timing idx :: reconcileAux t (p + timing.word.length) (idx + 1) rest

/-- The full reconciliation of handleSubmit: cursor and index start at 0. -/
def reconcile (t : List Char) (timings : List WordTiming) : List ViewElement :=
  reconcileAux t 0 0 timings

/-- The text content of one view segment: the word text for a Word
segment, the literal content for a Whitespace segment. -/
def ViewElement.content : ViewElement → List Char
  | .word timing _ => timing.word
  | .whitespace c => c

/-- Concatenation of segment contents in sequence order. -/
def segsText (els : List ViewElement) : List Char :=
  (els.map ViewElement.content).flatten

/-- Every timing's word is found by the in-order substring search at or
after the running cursor, the cursor advancing past each found word. -/
def allFound (t : List Char) : ℕ → List WordTiming → Bool
  | _, [] => true
  | cursor, timing :: rest =>
      match indexOfFrom t timing.word cursor with
      | none => false
      | some p => allFound t (p + timing.word.length) rest

lemma segsText_nil : segsText [] = [] := rfl

lemma segsText_cons (e : ViewElement) (l : List ViewElement) :
    segsText (e :: l) = e.content ++ segsText l := by
  simp [segsText]

lemma segsText_append (a b : List ViewElement) :
    segsText (a ++ b) = segsText a ++ segsText b := by
  simp [segsText]

lemma indexOfFrom_some {t w : List Char} {c p : ℕ}
    (h : indexOfFrom t w c = some p) :
    c ≤ p ∧ (t.drop p).take w.length = w := by
  have hp := List.find?_some h
  simp only [Bool.and_eq_true, decide_eq_true_eq, matchesAt] at hp
  exact hp

lemma matchesAt_drop {t w : List Char} {p : ℕ}
    (h : (t.drop p).take w.length = w) :
    t.drop p = w ++ t.drop (p + w.length) := by
  conv_lhs => rw [← List.take_append_drop w.length (t.drop p)]
  rw [h, List.drop_drop]

lemma reconcileAux_text (t : List Char) (ts : List WordTiming) :
    ∀ c idx, allFound t c ts = true →
      segsText (reconcileAux t c idx ts) = t.drop c := by
  induction ts with
  | nil =>
      intro c idx _
      by_cases h : t.drop c = []
      · simp [reconcileAux, h, segsText]
      · simp [reconcileAux, h, segsText, ViewElement.content]
  | cons timing rest ih =>
      intro c idx hf
      unfold allFound at hf
      cases hfind : indexOfFrom t timing.word c with
      | none => rw [hfind] at hf; simp at hf
      | some p =>
          rw [hfind] at hf
          obtain ⟨hcp, hmatch⟩ := indexOfFrom_some hfind
          have hdrop : t.drop p = timing.word ++ t.drop (p + timing.word.length) :=
            matchesAt_drop hmatch
          have htail := ih (p + timing.word.length) (idx + 1) hf
          have hdd : (t.drop c).drop (p - c) = t.drop p := by
            rw [List.drop_drop]
            congr 1
            omega
          have hsplit : t.drop c = (t.drop c).take (p - c) ++ t.drop p := by
            conv_lhs => rw [← List.take_append_drop (p - c) (t.drop c)]
            rw [hdd]
          simp only [reconcileAux, hfind]
          by_cases hws : (t.drop c).take (p - c) = []
          · rw [if_pos hws, List.nil_append, segsText_cons, htail]
            conv_rhs => rw [hsplit, hws]
            rw [List.nil_append, hdrop]
            simp [ViewElement.content]
          · rw [if_neg hws, List.cons_append, List.nil_append,
              segsText_cons, segsText_cons, htail]
            conv_rhs => rw [hsplit, hdrop]
            simp [ViewElement.content]

/-- Claim C1: for every transcript and timing list in which each timing's
word is found by plain in-order substring search at or after the running
cursor, concatenating the contents of the reconciled view segments in
sequence order equals the original transcript exactly. -/
theorem reconcile_roundTrip (t : List Char) (ts : List WordTiming)
    (h : allFound t 0 ts = true) :
    segsText (reconcile t ts) = t := by
  have := reconcileAux_text t ts 0 0 h
  simpa [reconcile] using this

/-- Witness for C1 at transcript "ab c" with timings for "ab" and "c". -/
theorem reconcile_roundTrip_witness :
    allFound ("ab c".toList) 0
        [⟨"ab".toList, 0, 1⟩, ⟨"c".toList, 1, 2⟩] = true ∧
      segsText (reconcile ("ab c".toList)
        [⟨"ab".toList, 0, 1⟩, ⟨"c".toList, 1, 2⟩]) = "ab c".toList :=
  ⟨by decide, reconcile_roundTrip _ _ (by decide)⟩

/-- JS Array.findIndex: the index of the first element satisfying the
predicate, or -1 when none does. The second argument is the index of the
head of the remaining list. -/
def findIndexAux (p : WordTiming → Bool) : List WordTiming → ℕ → Int
  | [], _ => -1
  | tm :: rest, i => if p tm then (i : Int) else findIndexAux p rest (i + 1)

/-- The active-word computation shared by handleTimeUpdate (part_000
lines 116-118) and renderFrame (line 270): the first timing whose
half-open interval [start, end) contains the current time, -1 when
none does. -/
def findActiveIndex (time : ℚ) (timings : List WordTiming) : Int :=
  findIndexAux (fun tm => decide (tm.start ≤ time) && decide (time < tm.endTime))
    timings 0

/-- The state update of handleTimeUpdate (part_000 lines 113-122): the
new activeWordIndex given the timing list, the current playback time and
the previous activeWordIndex. The source guards the setState call with
currentWordIndex !== -1, so a non-match leaves the state alone. -/
def handleTimeUpdate (timings : List WordTiming) (time : ℚ)
    (activeWordIndex : Int) : Int :=
  let currentWordIndex := findActiveIndex time timings
  if currentWordIndex ≠ -1 then currentWordIndex else activeWordIndex

/-- Counterexample to claim C2: with the single timing for "a" over
[0, 1), at time 2 no interval contains the time (findIndex yields -1),
yet handleTimeUpdate keeps the previously active word 0 instead of
moving the tracked index to -1. -/
theorem handleTimeUpdate_keeps_previous_counterexample :
    findActiveIndex 2 [⟨['a'], 0, 1⟩] = -1 ∧
      handleTimeUpdate [⟨['a'], 0, 1⟩] 2 0 = 0 ∧
      ¬ handleTimeUpdate [⟨['a'], 0, 1⟩] 2 0 = -1 := by
  refine ⟨by decide, by decide, by decide⟩

/-- Claim C2 amended: on a playback time update where no timing interval
[start, end) contains the current time, findIndex yields -1 and the
guarded state update leaves the tracked active word index unchanged —
the previously active word stays active through gaps. -/
theorem handleTimeUpdate_gap_keeps_previous (timings : List WordTiming)
    (time : ℚ) (prev : Int) (h : findActiveIndex time timings = -1) :
    handleTimeUpdate timings time prev = prev := by
  simp [handleTimeUpdate, h]

/-- Witness for the amended C2 at a concrete gap time. -/
theorem handleTimeUpdate_gap_keeps_previous_witness :
    findActiveIndex 5 [⟨['a'], 0, 1⟩] = -1 ∧
      handleTimeUpdate [⟨['a'], 0, 1⟩] 5 7 = 7 :=
  ⟨by decide, handleTimeUpdate_gap_keeps_previous _ _ _ (by decide)⟩

/-- Claim C3: for a timing t with start ≤ end, over the single-element
list [t] the active-index computation returns t's index 0 exactly when
start ≤ time < end, and returns -1 at time = end: the interval is
half-open, a word is never active at its end instant. -/
theorem activeIndex_singleton (t : WordTiming) (h : t.start ≤ t.endTime)
    (time : ℚ) :
    (findActiveIndex time [t] = 0 ↔ t.start ≤ time ∧ time < t.endTime) ∧
      findActiveIndex t.endTime [t] = -1 := by
  constructor
  · by_cases h1 : t.start ≤ time
    · by_cases h2 : time < t.endTime
      · simp [findActiveIndex, findIndexAux, h1, h2]
      · simp [findActiveIndex, findIndexAux, h1, h2]
    · simp [findActiveIndex, findIndexAux, h1]
  · have h2 : ¬ t.endTime < t.endTime := lt_irrefl _
    simp [findActiveIndex, findIndexAux, h2]

/-- Witness for C3 at the timing for "a" over [0, 1) and time 1/2. -/
theorem activeIndex_singleton_witness :
    ((0 : ℚ) ≤ 1) ∧
      ((findActiveIndex (1/2) [⟨['a'], 0, 1⟩] = 0 ↔
          (0 : ℚ) ≤ 1/2 ∧ (1/2 : ℚ) < 1) ∧
        findActiveIndex 1 [⟨['a'], 0, 1⟩] = -1) :=
  ⟨by norm_num, activeIndex_singleton ⟨['a'], 0, 1⟩ (by norm_num) (1/2)⟩

/-- Claim C4: a timing whose word is not found at or after the cursor is
emitted as a bare Word segment carrying originalIndex = its position in
the timing sequence, with no preceding Whitespace segment; the remaining
timings are then processed with the cursor unchanged. -/
theorem reconcile_notFound_degrades (t : List Char) (timing : WordTiming)
    (rest : List WordTiming) (cursor idx : ℕ)
    (h : indexOfFrom t timing.word cursor = none) :
    reconcileAux t cursor idx (timing :: rest) =
      ViewElement.word timing idx :: reconcileAux t cursor (idx + 1) rest := by
  simp [reconcileAux, h]

/-- Witness for C4: the word "xy" does not occur in "ab", so the
timing is appended bare and "ab" survives as the trailing whitespace of
the continued run. -/
theorem reconcile_notFound_degrades_witness :
    indexOfFrom ("ab".toList) ("xy".toList) 0 = none ∧
      reconcileAux ("ab".toList) 0 0 [⟨"xy".toList, 0, 1⟩] =
        ViewElement.word ⟨"xy".toList, 0, 1⟩ 0 ::
          reconcileAux ("ab".toList) 0 1 [] :=
  ⟨by decide, reconcile_notFound_degrades _ _ _ _ _ (by decide)⟩

lemma indexOfFrom_lower {t w : List Char} {c p : ℕ}
    (h : indexOfFrom t w c = some p) : c ≤ p :=
  (indexOfFrom_some h).1

/-- Claim C5: duplicate words bind to successive occurrences. On the
concrete spec example, transcript "the the" with two timings for "the",
the second timing binds to the second occurrence (whitespace " " is
emitted between the two words and the round trip holds); in general a
search result lies at or after the running cursor, and the search for
the next timing starts past the end of the previous match, so it can
only bind a strictly later occurrence. -/
theorem reconcile_duplicate_binds_next :
    reconcile ("the the".toList)
        [⟨"the".toList, 0, 1⟩, ⟨"the".toList, 1, 2⟩] =
      [ViewElement.word ⟨"the".toList, 0, 1⟩ 0,
        ViewElement.whitespace [' '],
        ViewElement.word ⟨"the".toList, 1, 2⟩ 1] ∧
    ∀ (t w : List Char) (c p q : ℕ), w ≠ [] →
      indexOfFrom t w c = some p →
      indexOfFrom t w (p + w.length) = some q → c ≤ p ∧ p < q := by
  constructor
  · decide
  · intro t w c p q hw h1 h2
    refine ⟨indexOfFrom_lower h1, ?_⟩
    have h3 := indexOfFrom_lower h2
    have : 0 < w.length := List.length_pos.mpr hw
    omega

/-- Witness for C5's general part on "the the": the first match is at 0,
the second search starts at 3 and matches at 4 > 0. -/
theorem reconcile_duplicate_binds_next_witness :
    ("the".toList ≠ ([] : List Char)) ∧
      indexOfFrom ("the the".toList) ("the".toList) 0 = some 0 ∧
      indexOfFrom ("the the".toList) ("the".toList) 3 = some 4 ∧
      (0 ≤ 0 ∧ 0 < 4) :=
  ⟨by decide, by decide, by decide,
    reconcile_duplicate_binds_next.2 ("the the".toList) ("the".toList) 0 0 4
      (by decide) (by decide) (by decide)⟩

/-- Canvas width fixed in handleExportVideo (part_000 line 159). -/
def CANVAS_WIDTH : ℚ := 1920

/-- Canvas height fixed in handleExportVideo (part_000 line 160). -/
def CANVAS_HEIGHT : ℚ := 1080

/-- Font size constant of the export renderer (part_000 line 156). -/
def FONT_SIZE : ℚ := 48

/-- Padding constant of the export renderer (part_000 line 157). -/
def PADDING : ℚ := 60

/-- Line height FONT_SIZE * 1.8 (part_000 line 158). -/
def LINE_HEIGHT : ℚ := FONT_SIZE * (9 / 5)

/-- Smoothing factor 0.08 of the camera pan (part_000 line 266). -/
def LERP_FACTOR : ℚ := 8 / 100

/-- One per-frame scroll smoothing step (part_000 lines 289-293): move
8% of the remaining distance toward the target, then snap exactly to the
target when within 0.5px of it. -/
def lerpStep (targetScrollY currentScrollY : ℚ) : ℚ :=
  let moved := currentScrollY + (targetScrollY - currentScrollY) * LERP_FACTOR
  if |targetScrollY - moved| < 1 / 2 then targetScrollY else moved

/-- The scroll computation of renderFrame (part_000 lines 279-295):
when the text is taller than the canvas, retarget to the active word's y
minus half the canvas height (keeping the previous target when no active
layout exists), clamp to [0, totalTextHeight - canvasHeight], and apply
one smoothing step; otherwise leave both values alone. Returns the new
(targetScrollY, currentScrollY). -/
def scrollUpdate (totalTextHeight : ℚ) (activeY : Option ℚ)
    (targetScrollY currentScrollY : ℚ) : ℚ × ℚ :=
  if CANVAS_HEIGHT < totalTextHeight then
    let t0 := match activeY with
      | some y => y - CANVAS_HEIGHT / 2
      | none => targetScrollY
    let t1 := max 0 (min t0 (totalTextHeight - CANVAS_HEIGHT))
    (t1, lerpStep t1 currentScrollY)
  else (targetScrollY, currentScrollY)

lemma lerp_moved_dist (t c : ℚ) :
    |t - (c + (t - c) * LERP_FACTOR)| = (23 / 25) * |t - c| := by
  have h : t - (c + (t - c) * LERP_FACTOR) = (23 / 25) * (t - c) := by
    rw [LERP_FACTOR]; ring
  rw [h, abs_mul]
  norm_num

lemma lerpStep_snap (t c : ℚ) (h : |t - c| < 1 / 2) : lerpStep t c = t := by
  have hlt : |t - (c + (t - c) * LERP_FACTOR)| < 1 / 2 := by
    rw [lerp_moved_dist]
    nlinarith [abs_nonneg (t - c)]
  simp only [lerpStep]
  rw [if_pos hlt]

lemma lerpStep_dist (t c : ℚ) : |t - lerpStep t c| ≤ (23 / 25) * |t - c| := by
  unfold lerpStep
  by_cases h : |t - (c + (t - c) * LERP_FACTOR)| < 1 / 2
  · simp only [h, if_pos]
    simp only [sub_self, abs_zero]
    positivity
  · simp only [h, if_neg, not_false_iff]
    exact le_of_eq (lerp_moved_dist t c)

lemma lerpStep_iterate_dist (t c : ℚ) :
    ∀ n, |t - (lerpStep t)^[n] c| ≤ (23 / 25) ^ n * |t - c| := by
  intro n
  induction n with
  | zero => simp
  | succ n ih =>
      rw [Function.iterate_succ_apply']
      calc |t - lerpStep t ((lerpStep t)^[n] c)|
          ≤ (23 / 25) * |t - (lerpStep t)^[n] c| := lerpStep_dist _ _
        _ ≤ (23 / 25) * ((23 / 25) ^ n * |t - c|) :=
            mul_le_mul_of_nonneg_left ih (by norm_num)
        _ = (23 / 25) ^ (n + 1) * |t - c| := by ring

lemma lerp_converges (t c : ℚ) : ∃ n, (lerpStep t)^[n] c = t := by
  have habs : (0 : ℚ) ≤ |t - c| := abs_nonneg _
  have hN : ∃ n : ℕ, (23 / 25 : ℚ) ^ n < 1 / (2 * (|t - c| + 1)) :=
    exists_pow_lt_of_lt_one (by positivity) (by norm_num)
  obtain ⟨N, hN⟩ := hN
  refine ⟨N + 1, ?_⟩
  rw [Function.iterate_succ_apply']
  apply lerpStep_snap
  have h1 := lerpStep_iterate_dist t c N
  have h3 : (23 / 25 : ℚ) ^ N * |t - c| ≤ (23 / 25) ^ N * (|t - c| + 1) :=
    mul_le_mul_of_nonneg_left (by linarith) (by positivity)
  have h4 : (23 / 25 : ℚ) ^ N * (|t - c| + 1) <
      (1 / (2 * (|t - c| + 1))) * (|t - c| + 1) :=
    mul_lt_mul_of_pos_right hN (by positivity)
  have h5 : (1 / (2 * (|t - c| + 1))) * (|t - c| + 1) = 1 / 2 := by
    field_simp
    ring
  linarith

/-- Claim C6: while the text is taller than the canvas and an active
word layout exists, the new targetScrollY is the active word's y minus
half the canvas height clamped to [0, totalTextHeight - canvasHeight];
and for any fixed target the per-frame smoothing step (close 8% of the
remaining distance, snap when within 0.5px) reaches the target exactly
after finitely many iterations. -/
theorem scroll_target_and_convergence (y tth prevT cur target c0 : ℚ)
    (hgt : CANVAS_HEIGHT < tth) :
    (scrollUpdate tth (some y) prevT cur).1 =
        max 0 (min (y - CANVAS_HEIGHT / 2) (tth - CANVAS_HEIGHT)) ∧
      ∃ n, (lerpStep target)^[n] c0 = target := by
  exact ⟨by simp [scrollUpdate, hgt], lerp_converges target c0⟩

/-- Witness for C6 at a 2000px-tall text, active word at y = 700, and a
smoothing run from 0 toward target 100. -/
theorem scroll_target_and_convergence_witness :
    CANVAS_HEIGHT < 2000 ∧
      ((scrollUpdate 2000 (some 700) 0 0).1 =
          max 0 (min (700 - CANVAS_HEIGHT / 2) (2000 - CANVAS_HEIGHT)) ∧
        ∃ n, (lerpStep 100)^[n] 0 = 100) :=
  ⟨by norm_num [CANVAS_HEIGHT],
    scroll_target_and_convergence 700 2000 0 0 100 0
      (by norm_num [CANVAS_HEIGHT])⟩

/-- Resolved pixel position of one word (interface CanvasLayout in
part_000 lines 172-178). -/
structure CanvasLayout where
  word : List Char
  x : ℚ
  y : ℚ
  width : ℚ
  originalIndex : ℕ
deriving DecidableEq, Repr

/-- Mutable cursor state of the layout pass: currentX, currentY and the
layouts accumulated so far. -/
structure LayoutState where
  currentX : ℚ
  currentY : ℚ
  layouts : List CanvasLayout
deriving DecidableEq, Repr

/-- A line wrap: advance the vertical cursor by LINE_HEIGHT and reset
the horizontal cursor to the right edge (part_000 lines 189-190). -/
def wrapLine (s : LayoutState) : LayoutState :=
  { s with currentY := s.currentY + LINE_HEIGHT,
           currentX := CANVAS_WIDTH - PADDING }

/-- The whitespace character step of the layout pass (part_000 lines
197-210): a newline wraps unconditionally; any other character wraps
when it would cross the left padding and otherwise moves the horizontal
cursor leftward by its measured width. measure models
ctx.measureText(...).width on a string. -/
def layoutWhitespaceChar (measure : List Char → ℚ) (s : LayoutState)
    (c : Char) : LayoutState :=
  if c = '\n' then wrapLine s
  else
    let w := measure [c]
    if s.currentX - w < PADDING then wrapLine s
    else { s with currentX := s.currentX - w }

/-- The word step of the layout pass (part_000 lines 184-195): wrap
first when the word would cross the left padding, record the layout at
the current cursor (x is the word's right edge), then move the cursor
leftward by the word's width. -/
def layoutWord (measure : List Char → ℚ) (s : LayoutState)
    (tm : WordTiming) (idx : ℕ) : LayoutState :=
  let w := measure tm.word
  let s1 := if s.currentX - w < PADDING then wrapLine s else s
  { currentX := s1.currentX - w,
    currentY := s1.currentY,
    layouts := s1.layouts ++ [⟨tm.word, s1.currentX, s1.currentY, w, idx⟩] }

/-- The per-segment step of the layout pass (part_000 lines 183-212). -/
def layoutElement (measure : List Char → ℚ) (s : LayoutState) :
    ViewElement → LayoutState
  | .word tm idx => layoutWord measure s tm idx
  | .whitespace content => content.foldl (layoutWhitespaceChar measure) s

/-- Initial layout cursor (part_000 lines 180-181). -/
def initialLayoutState : LayoutState :=
  ⟨CANVAS_WIDTH - PADDING, PADDING + FONT_SIZE, []⟩

/-- The whole layout pass over the view segments. -/
def layoutElements (measure : List Char → ℚ) (els : List ViewElement) :
    LayoutState :=
  els.foldl (layoutElement measure) initialLayoutState

/-- A width function assigning every string width 10, used as concrete
font metrics. -/
def widthTen : List Char → ℚ := fun _ => 10

/-- Counterexample to claim C7: at cursor x = 60 a space of width 10
would overflow the left padding; the code wraps and leaves the cursor at
the right edge 1860 without consuming the character's width, while the
claim (wrap first, then advance by the measured width) predicts
1860 - 10 = 1850. -/
theorem layoutWhitespace_overflow_counterexample :
    (layoutElement widthTen ⟨60, 108, []⟩ (.whitespace [' '])).currentX =
        CANVAS_WIDTH - PADDING ∧
      ¬ (layoutElement widthTen ⟨60, 108, []⟩ (.whitespace [' '])).currentX =
          CANVAS_WIDTH - PADDING - widthTen [' '] := by
  have hstep : layoutElement widthTen ⟨60, 108, []⟩ (.whitespace [' ']) =
      wrapLine ⟨60, 108, []⟩ := by
    simp only [layoutElement, List.foldl_cons, List.foldl_nil,
      layoutWhitespaceChar, widthTen]
    norm_num [PADDING]
  rw [hstep]
  norm_num [wrapLine, widthTen, CANVAS_WIDTH, PADDING]

/-- Claim C7 amended: in the whitespace branch of the layout pass, a
newline wraps unconditionally (reset the horizontal cursor to the right
edge, advance the vertical cursor by LINE_HEIGHT); any other character
whose width would cross the left padding wraps the same way WITHOUT also
advancing by its width (the character's width is not consumed); and a
character that fits advances the horizontal cursor leftward by its
measured width with no vertical movement. No layout records are added
for whitespace. -/
theorem layoutWhitespace_char_cases (measure : List Char → ℚ)
    (c : Char) (s : LayoutState) (hc : c ≠ '\n') :
    layoutElement measure s (.whitespace ['\n']) = wrapLine s ∧
      (s.currentX - measure [c] < PADDING →
        layoutElement measure s (.whitespace [c]) = wrapLine s) ∧
      (¬ s.currentX - measure [c] < PADDING →
        layoutElement measure s (.whitespace [c]) =
          { s with currentX := s.currentX - measure [c] }) := by
  refine ⟨?_, ?_, ?_⟩
  · simp [layoutElement, layoutWhitespaceChar]
  · intro hover
    simp [layoutElement, layoutWhitespaceChar, hc, hover]
  · intro hfits
    simp [layoutElement, layoutWhitespaceChar, hc, hfits]

/-- Witness for the amended C7 with width-10 metrics at x = 60: the
space overflows and the step wraps to the right edge. -/
theorem layoutWhitespace_char_cases_witness :
    (' ' ≠ '\n') ∧
      ((60 : ℚ) - widthTen [' '] < PADDING) ∧
      layoutElement widthTen ⟨60, 108, []⟩ (.whitespace ['\n']) =
        wrapLine ⟨60, 108, []⟩ ∧
      layoutElement widthTen ⟨60, 108, []⟩ (.whitespace [' ']) =
        wrapLine ⟨60, 108, []⟩ :=
  ⟨by decide, by norm_num [widthTen, PADDING],
    (layoutWhitespace_char_cases widthTen ' ' ⟨60, 108, []⟩ (by decide)).1,
    (layoutWhitespace_char_cases widthTen ' ' ⟨60, 108, []⟩ (by decide)).2.1
      (by norm_num [widthTen, PADDING])⟩

/-- The inputs handleExportVideo reads before doing anything: whether an
audio element is mounted, whether the timing list is non-empty, and the
current value of the isExporting flag (part_000 line 148). -/
structure ExportFlags where
  hasAudio : Bool
  hasTimings : Bool
  isExporting : Bool
deriving DecidableEq, Repr

/-- The possible exits of one export request. -/
inductive ExportExit where
  | noop
  | ctxFailure
  | playbackFailure
  | completed
deriving DecidableEq, Repr

/-- Observable outcome of one export request: which exit was taken, the
value of the isExporting flag when the asynchronous export work begins,
and its value after the exit path has run. -/
structure ExportRun where
  exit : ExportExit
  flagDuringAsync : Bool
  finalExporting : Bool
deriving DecidableEq, Repr

/-- The export state machine of handleExportVideo (part_000 lines
147-354), with the environment outcomes as explicit inputs: ctxOk is
whether canvas.getContext succeeds (lines 161-165), playOk whether
audioEl.play resolves (lines 333-338). Guard first (line 148); the flag
is set (line 149) before the seek/exportProcess continuation runs;
canvas failure clears it (line 163); playback failure stops the recorder
and clears it (line 337); on natural completion recorder.onstop clears
it (line 257). -/
def handleExportVideo (f : ExportFlags) (ctxOk playOk : Bool) : ExportRun :=
  if !f.hasAudio || !f.hasTimings || f.isExporting then
    { exit := .noop, flagDuringAsync := f.isExporting,
      finalExporting := f.isExporting }
  else
    if !ctxOk then
      { exit := .ctxFailure, flagDuringAsync := true, finalExporting := false }
    else if !playOk then
      { exit := .playbackFailure, flagDuringAsync := true,
        finalExporting := false }
    else
      { exit := .completed, flagDuringAsync := true, finalExporting := false }

/-- Claim C8: a start-export request while the exporting flag is set is
a no-op leaving the flag as it was; whenever a request passes the guard,
the flag is already set when the asynchronous export work begins, and it
is cleared on every exit path — canvas-context failure, audio playback
failure, and successful completion through the recorder stop handler. -/
theorem export_flag_discipline (f : ExportFlags) (ctxOk playOk : Bool)
    (hAudio : f.hasAudio = true) (hTimings : f.hasTimings = true) :
    (f.isExporting = true →
        (handleExportVideo f ctxOk playOk).exit = .noop ∧
          (handleExportVideo f ctxOk playOk).finalExporting = true) ∧
      (f.isExporting = false →
        (handleExportVideo f ctxOk playOk).flagDuringAsync = true ∧
          (handleExportVideo f ctxOk playOk).finalExporting = false) := by
  constructor
  · intro hExp
    simp [handleExportVideo, hExp]
  · intro hExp
    cases ctxOk <;> cases playOk <;>
      simp [handleExportVideo, hExp, hAudio, hTimings]

/-- Witness for C8: with audio and timings present and the flag clear, a
request that fails at playback still ends with the flag cleared. -/
theorem export_flag_discipline_witness :
    ((⟨true, true, false⟩ : ExportFlags).hasAudio = true) ∧
      ((⟨true, true, false⟩ : ExportFlags).hasTimings = true) ∧
      ((⟨true, true, false⟩ : ExportFlags).isExporting = false) ∧
      (handleExportVideo ⟨true, true, false⟩ true false).flagDuringAsync = true ∧
      (handleExportVideo ⟨true, true, false⟩ true false).finalExporting = false :=
  ⟨rfl, rfl, rfl,
    ((export_flag_discipline ⟨true, true, false⟩ true false rfl rfl).2 rfl).1,
    ((export_flag_discipline ⟨true, true, false⟩ true false rfl rfl).2 rfl).2⟩

/-- One parsed element of the oracle's JSON array, recording which of
the three required fields are present (hasOwnProperty checks in
geminiService.ts line 72). -/
structure RawTiming where
  hasWord : Bool
  hasStart : Bool
  hasEnd : Bool
deriving DecidableEq, Repr

/-- The parsed oracle response: a non-array JSON value, or an array of
timing-like objects. -/
inductive OracleResponse where
  | nonArray
  | array (items : List RawTiming)
deriving DecidableEq, Repr

/-- The single generic error message of generateWordTimings
(geminiService.ts line 80). -/
def GENERIC_ERROR : String := "Failed to generate word timings from Gemini API."

/-- The validation of generateWordTimings (geminiService.ts lines
64-81): a non-array response throws; a non-empty array whose FIRST
element is missing the word, start or end field throws; everything is
caught and rethrown as the one generic error. Any other array is
returned as the timing list. -/
def generateWordTimings (r : OracleResponse) :
    Except String (List RawTiming) :=
  match r with
  | .nonArray => .error GENERIC_ERROR
  | .array ts =>
      match ts with
      | [] => .ok []
      | t0 :: _ =>
          if !t0.hasWord || !t0.hasStart || !t0.hasEnd then
            .error GENERIC_ERROR
          else .ok ts

/-- Counterexample to claim C9: an array whose first element carries all
three fields but whose second element is missing every field passes the
validation and is returned as the timing list instead of failing — only
the first element is inspected. -/
theorem generateWordTimings_second_element_counterexample :
    generateWordTimings
        (.array [⟨true, true, true⟩, ⟨false, false, false⟩]) =
      .ok [⟨true, true, true⟩, ⟨false, false, false⟩] ∧
      ¬ generateWordTimings
          (.array [⟨true, true, true⟩, ⟨false, false, false⟩]) =
        .error GENERIC_ERROR := by
  refine ⟨rfl, by simp [generateWordTimings]⟩

/-- Claim C9 amended: a non-array response, and a non-empty array whose
FIRST element is missing the word, start or end field, fail with the
single generic error "Failed to generate word timings from Gemini API.";
elements beyond the first are not validated. -/
theorem generateWordTimings_rejects_malformed (t0 : RawTiming)
    (rest : List RawTiming)
    (h : t0.hasWord = false ∨ t0.hasStart = false ∨ t0.hasEnd = false) :
    generateWordTimings .nonArray = .error GENERIC_ERROR ∧
      generateWordTimings (.array (t0 :: rest)) = .error GENERIC_ERROR := by
  constructor
  · rfl
  · rcases h with h | h | h <;> simp [generateWordTimings, h]

/-- Witness for the amended C9 at a first element missing its end
field. -/
theorem generateWordTimings_rejects_malformed_witness :
    ((⟨true, true, false⟩ : RawTiming).hasWord = false ∨
        (⟨true, true, false⟩ : RawTiming).hasStart = false ∨
        (⟨true, true, false⟩ : RawTiming).hasEnd = false) ∧
      generateWordTimings .nonArray = .error GENERIC_ERROR ∧
      generateWordTimings (.array [⟨true, true, false⟩]) =
        .error GENERIC_ERROR :=
  ⟨Or.inr (Or.inr rfl),
    (generateWordTimings_rejects_malformed ⟨true, true, false⟩ []
        (Or.inr (Or.inr rfl))).1,
    (generateWordTimings_rejects_malformed ⟨true, true, false⟩ []
        (Or.inr (Or.inr rfl))).2⟩

/-- Claim C10: an empty timing list is accepted end to end — the
validation returns an empty oracle array as a successful empty result
(the field check is skipped), and reconciliation with zero timings
yields exactly one Whitespace segment holding the whole transcript when
the transcript is non-empty, and no segments at all when it is empty. -/
theorem empty_timings_accepted (t : List Char) (ht : t ≠ []) :
    generateWordTimings (.array []) = .ok [] ∧
      reconcile t [] = [ViewElement.whitespace t] ∧
      reconcile [] [] = [] := by
  refine ⟨rfl, ?_, rfl⟩
  simp [reconcile, reconcileAux, ht]

/-- Witness for C10 at the transcript "hi". -/
theorem empty_timings_accepted_witness :
    ("hi".toList ≠ ([] : List Char)) ∧
      (generateWordTimings (.array []) = .ok [] ∧
        reconcile ("hi".toList) [] = [ViewElement.whitespace ("hi".toList)] ∧
        reconcile [] [] = []) :=
  ⟨by decide, empty_timings_accepted ("hi".toList) (by decide)⟩

end SyncPlayer
